import Mathlib

/-!
Verification of the aggregation-and-forecast subsystem of the Capstone
backend (`BackendDB/server.py`), as a shallow embedding in Lean 4.

Machine floats are modelled by exact rationals (the spec fixes the
algorithm as ordinary least squares, and every claim is about the
algorithmic behaviour, not float error).  Dates are modelled as integer
day counts, calendar months as pairs (year, month).  The database layer
(`GROUP BY` aggregation done by SQL in `prepare_daily_avg_data` /
`load_monthly_data` / `get_chart_query`) is an external collaborator:
its result rows are the inputs of the embedded functions, exactly at the
boundary where the Python code receives them.
-/

namespace CapstoneBackend

/-- `round(x, 2)` at the output boundary (`server.py` lines 201, 213, 219,
576-577, 794-795).  Rounds to two decimal places; the exact tie-breaking
rule of Python's `round` is immaterial to every claim proved here. -/
def round2 (q : ℚ) : ℚ := (round (q * 100) : ℚ) / 100

/-- Sum of `f` over a list, as used for the regression sums. -/
def sumBy (l : List α) (f : α → ℚ) : ℚ := (l.map f).sum

/-- Mean of the first components of the regression points. -/
def xbarOf (pts : List (ℚ × ℚ)) : ℚ := sumBy pts Prod.fst / pts.length

/-- Mean of the second components of the regression points. -/
def ybarOf (pts : List (ℚ × ℚ)) : ℚ := sumBy pts Prod.snd / pts.length

/-- Centered sum of squares of the regression feature. -/
def sxxOf (pts : List (ℚ × ℚ)) : ℚ :=
  sumBy pts fun p => (p.1 - xbarOf pts) ^ 2

/-- Centered cross sum of feature and target. -/
def sxyOf (pts : List (ℚ × ℚ)) : ℚ :=
  sumBy pts fun p => (p.1 - xbarOf pts) * (p.2 - ybarOf pts)

/-- Ordinary-least-squares slope, as computed by
`sklearn.linear_model.LinearRegression().fit` on a single feature
(`server.py` lines 189, 211, 217): sklearn centers the data and solves
least squares; for distinct abscissae the unique solution is
`Sxy / Sxx`, and when the centered feature is identically zero (a single
sample) the minimum-norm solution has slope `0`. -/
def slopeOf (pts : List (ℚ × ℚ)) : ℚ :=
  if sxxOf pts = 0 then 0 else sxyOf pts / sxxOf pts

/-- A fitted regression line. -/
structure Fit where
  slope : ℚ
  intercept : ℚ
deriving DecidableEq

/-- Fit an ordinary-least-squares line over (feature, target) points
(`LinearRegression().fit(X, y)`). -/
def fitOLS (pts : List (ℚ × ℚ)) : Fit :=
  ⟨slopeOf pts, ybarOf pts - slopeOf pts * xbarOf pts⟩

/-- Evaluate the fitted line (`model.predict`). -/
def Fit.predict (f : Fit) (x : ℚ) : ℚ := f.intercept + f.slope * x

/-! ## Daily aggregation rows and the next-day predictor

`prepare_daily_avg_data` (`server.py` 117-146) receives from SQL one row
per distinct calendar day, `(date, avg_value)`, ordered ascending, and
derives `day_num = date - date.min()`. -/

/-- One row of the SQL daily-average result set: the calendar date (as a
day count) and the day's average value of the selected field. -/
structure DailyRow where
  date : ℤ
  avg_value : ℚ
deriving DecidableEq

/-- `df["date"].min()` over the daily rows (0 on the empty frame, which
the code never queries because it returns early). -/
def minDate : List DailyRow → ℤ
  | [] => 0
  | r :: rs => rs.foldl (fun m s => min m s.date) r.date

/-- The `day_num` column: `(df["date"] - df["date"].min()).dt.days`
(`server.py` line 142). -/
def dayNums (rows : List DailyRow) : List ℤ :=
  rows.map fun r => r.date - minDate rows

/-- The regression points `(day_num, avg_value)` fed to `fit`
(`server.py` lines 144-146). -/
def dayNumPts (rows : List DailyRow) : List (ℚ × ℚ) :=
  rows.map fun r => (((r.date - minDate rows : ℤ) : ℚ), r.avg_value)

/-- `df["day_num"].max()` (`server.py` lines 212, 218). -/
def maxDayNum (rows : List DailyRow) : ℤ :=
  match dayNums rows with
  | [] => 0
  | a :: as => as.foldl max a

/-- The linear model fitted on the daily averages
(`LinearRegression().fit(Xv, yv)`, `server.py` lines 211, 217). -/
def dailyFit (rows : List DailyRow) : Fit := fitOLS (dayNumPts rows)

/-- The next-day prediction pipeline of `update_forecast_cache`
(`server.py` lines 209-219), before the 2-decimal rounding applied at
the cache write: `None` when there is no daily data (the
`if Xv is not None` guard mirroring `prepare_daily_avg_data` returning
`None` on an empty result set), otherwise the fitted line evaluated at
`day_num.max() + 1`. -/
def predictNextValue (rows : List DailyRow) : Option ℚ :=
  match rows with
  | [] => none
  | _ :: _ => some ((dailyFit rows).predict ((maxDayNum rows + 1 : ℤ) : ℚ))

/-! ## The forecast cache and its recompute -/

/-- The in-memory `forecast_cache` dict (`server.py` lines 52-56):
cached next-day voltage and current predictions and the date the cache
was last computed (`None` = never computed / invalidated). -/
structure ForecastCache where
  voltage : Option ℚ
  current : Option ℚ
  date : Option ℤ
deriving DecidableEq

/-- Outcome of one field's prediction step inside the `try` block of
`update_forecast_cache`: the step either raises an exception somewhere
in `prepare_daily_avg_data` / `fit` / `predict` (e.g. the store is
unavailable), or returns the optional predicted value (`none` when the
field has no daily data). -/
inductive StepResult where
  | fail : StepResult
  | ok : Option ℚ → StepResult
deriving DecidableEq

/-- The body of `update_forecast_cache` (`server.py` lines 208-222) with
its sequential writes to the shared cache, returning the cache state at
the point the body finishes or raises, together with a flag telling
whether an exception was raised.  The voltage step runs first; on
success (and data present) the voltage field is written (rounded to two
decimals).  The current step runs second, then `forecast_cache["date"]`
is stamped with today, which therefore only happens when both steps
complete without raising. -/
def recomputeBodyRaw (today : ℤ) (vStep cStep : StepResult)
    (pre : ForecastCache) : ForecastCache × Bool :=
  match vStep with
  | .fail => (pre, true)
  | .ok vOpt =>
    let c1 := match vOpt with
      | none => pre
      | some v => { pre with voltage := some (round2 v) }
    match cStep with
    | .fail => (c1, true)
    | .ok cOpt =>
      let c2 := match cOpt with
        | none => c1
        | some c => { c1 with current := some (round2 c) }
      ({ c2 with date := some today }, false)

/-- `update_forecast_cache` (`server.py` lines 203-224): the whole body
runs under `try`/`except Exception` which logs and swallows any
exception, so the caller always receives the body's final cache state
and never an exception — the exception flag of the raw body is
discarded. -/
def updateForecastCacheSteps (today : ℤ) (vStep cStep : StepResult)
    (pre : ForecastCache) : ForecastCache :=
  (recomputeBodyRaw today vStep cStep pre).1

/-- `update_forecast_cache` on concrete daily data (the non-raising
path): each step computes its field's prediction from that field's
daily rows. -/
def updateForecastCache (today : ℤ) (vRows cRows : List DailyRow)
    (pre : ForecastCache) : ForecastCache :=
  updateForecastCacheSteps today (.ok (predictNextValue vRows))
    (.ok (predictNextValue cRows)) pre

/-- The forecast read path shared verbatim by `sensor_dashboard`
(`server.py` lines 558-560) and `api_forecast` (lines 707-709):
`if forecast_cache["date"] != datetime.now().date(): update_forecast_cache()`.
Returns the cache state subsequently served and whether a recompute was
triggered. -/
def forecastRead (today : ℤ) (vRows cRows : List DailyRow)
    (cache : ForecastCache) : ForecastCache × Bool :=
  if cache.date = some today then (cache, false)
  else (updateForecastCache today vRows cRows cache, true)

/-! ## Monthly aggregation rows and the best-month predictor

`load_monthly_data` (`server.py` 148-173) receives from SQL one row per
distinct calendar month, `(month, avg_value)` with `month` a
first-of-month date, ordered ascending, and derives the continuous
month number `(year - year.min()) * 12 + month`. -/

/-- One row of the SQL monthly-average result set: the calendar month
(year and month-of-year of the first-of-month date) and that month's
average value of the selected field. -/
structure MonthlyRow where
  year : ℤ
  month : ℤ
  avg_value : ℚ
deriving DecidableEq

/-- `df["month"].dt.year.min()` (`server.py` line 172). -/
def minYear : List MonthlyRow → ℤ
  | [] => 0
  | r :: rs => rs.foldl (fun m s => min m s.year) r.year

/-- The continuous month number of one row:
`(year - year.min()) * 12 + month` (`server.py` line 172). -/
def monthNum (rows : List MonthlyRow) (r : MonthlyRow) : ℤ :=
  (r.year - minYear rows) * 12 + r.month

/-- The `month_num` column. -/
def monthNums (rows : List MonthlyRow) : List ℤ := rows.map (monthNum rows)

/-- `df["month_num"].max()` (`server.py` line 191). -/
def maxMonthNum (rows : List MonthlyRow) : ℤ :=
  match monthNums rows with
  | [] => 0
  | a :: as => as.foldl max a

/-- `df["month_num"].min()` (`server.py` line 196). -/
def minMonthNum (rows : List MonthlyRow) : ℤ :=
  match monthNums rows with
  | [] => 0
  | a :: as => as.foldl min a

/-- A calendar month as an absolute month count `12 * year + month`;
adding `k` months to a date shifts this count by `k`
(`pd.DateOffset(months=k)`). -/
def absMonth (r : MonthlyRow) : ℤ := 12 * r.year + r.month

/-- `df["month"].min()` (`server.py` line 194), as an absolute month
count: the calendar month of the earliest bucket. -/
def startMonthAbs : List MonthlyRow → ℤ
  | [] => 0
  | r :: rs => rs.foldl (fun m s => min m (absMonth s)) (absMonth r)

/-- The regression points `(month_num, avg_value)`
(`server.py` lines 186-187). -/
def monthlyPts (rows : List MonthlyRow) : List (ℚ × ℚ) :=
  rows.map fun r => ((monthNum rows r : ℚ), r.avg_value)

/-- `LinearRegression().fit(X, y)` on the monthly aggregates
(`server.py` line 189). -/
def monthlyFit (rows : List MonthlyRow) : Fit := fitOLS (monthlyPts rows)

/-- `future_months = [df["month_num"].max() + i for i in range(1, 13)]`
(`server.py` line 191): the next 12 continuous month indices. -/
def futureMonths (rows : List MonthlyRow) : List ℤ :=
  (List.range 12).map fun i : ℕ => maxMonthNum rows + 1 + (i : ℤ)

/-- First maximum of a nonempty list of (month index, predicted value)
pairs, scanning in list order and replacing the incumbent only on a
strictly larger value — exactly the element
`(future index, prediction)` selected by
`best_idx = int(np.argmax(predictions))` (`server.py` line 200), since
`np.argmax` returns the first occurrence of the maximum. -/
def bestOf (p : ℤ × ℚ) (l : List (ℤ × ℚ)) : ℤ × ℚ :=
  l.foldl (fun acc q => if acc.2 < q.2 then q else acc) p

/-- `predict_highest_month` (`server.py` 175-201) composed with
`load_monthly_data`'s length gate (lines 166-167): `none` when the
monthly history is shorter than the required minimum, else fit OLS over
`month_num → avg_value`, predict the next 12 indices, and return the
calendar month of the first argmax
(`start_month + DateOffset(months = m - month_num.min())`, line 196,
as an absolute month count in place of its `"%B %Y"` rendering)
together with the prediction rounded to 2 decimals (line 201). -/
def predictHighestMonth (rows : List MonthlyRow) (minMonths : ℕ) :
    Option (ℤ × ℚ) :=
  if rows.length < minMonths then none
  else
    match (futureMonths rows).map
        (fun m => ((m, (monthlyFit rows).predict (m : ℚ)) : ℤ × ℚ)) with
    | [] => none
    | p :: ps =>
      some (startMonthAbs rows + ((bestOf p ps).1 - minMonthNum rows),
        round2 (bestOf p ps).2)

/-! ## Chart pagination

`sensor_dashboard` (`server.py` 567-578) and `chart_data_alias`
(785-799) share the slicing logic verbatim: the SQL chart query returns
one row per day, ordered newest first; the page slice is
`daily_aggregates[(page-1)*k : page*k][::-1]` and
`total_pages = ceil(len(daily_aggregates)/k) if daily_aggregates else 1`.
All functions are pure: slicing never modifies the underlying series. -/

/-- One row of the chart query result set (`get_chart_query`,
`server.py` 271-285): date, per-day average voltage and current, and
the day's total steps. -/
structure ChartRow where
  date : ℤ
  avg_voltage : ℚ
  avg_current : ℚ
  total_steps : ℤ
deriving DecidableEq

/-- The Python slice `series[(page-1)*k : page*k]`. -/
def pageSlice (l : List α) (page k : ℕ) : List α :=
  (l.drop ((page - 1) * k)).take k

/-- The chart page: the selected slice reversed to chronological order
(`[::-1]`, `server.py` lines 571-573 and 788-790). -/
def chartPage (l : List α) (page k : ℕ) : List α :=
  (pageSlice l page k).reverse

/-- `total_pages = ceil(len(series)/k) if series else 1`
(`server.py` lines 570, 787).  Natural-number ceiling division. -/
def totalPages (l : List α) (k : ℕ) : ℕ :=
  if l.isEmpty then 1 else (l.length + k - 1) / k

/-- The JSON payload of `/api/chart-data` (`chart_data_alias`,
`server.py` 792-799), with date labels in place of their `"%b %d"`
rendering. -/
structure ChartResponse where
  labels : List ℤ
  voltage : List ℚ
  current : List ℚ
  steps : List ℤ
  total_pages : ℕ
  current_page : ℕ
deriving DecidableEq

/-- `chart_data_alias` (`server.py` 777-799): slice, reverse, and
project the four series, rounding voltage and current to 2 decimals. -/
def chartDataAlias (l : List ChartRow) (page k : ℕ) : ChartResponse :=
  { labels := (chartPage l page k).map (·.date)
    voltage := (chartPage l page k).map (fun r => round2 r.avg_voltage)
    current := (chartPage l page k).map (fun r => round2 r.avg_current)
    steps := (chartPage l page k).map (·.total_steps)
    total_pages := totalPages l k
    current_page := page }

/-! ## Theorems -/

/-- C1, counterexample.  The claim asserts that a failing recompute
leaves the cache at its previous voltage, current and `computed_on`
with no partial update observable.  It is false on the code: starting
from cache `(voltage 1, current 2, computed_on day 0)`, a recompute
whose voltage step succeeds with prediction `5` and whose current step
raises leaves the cache at `(voltage 5, current 2, computed_on day 0)`
— a new voltage paired with the old `computed_on`. -/
theorem c1_partial_update_observable :
    updateForecastCacheSteps 1 (.ok (some 5)) .fail
        ⟨some 1, some 2, some 0⟩ = ⟨some 5, some 2, some 0⟩
    ∧ (⟨some 5, some 2, some 0⟩ : ForecastCache)
        ≠ ⟨some 1, some 2, some 0⟩ := by
  constructor
  · show (⟨some (round2 5), some 2, some 0⟩ : ForecastCache) = _
    norm_num [round2]
  · simp

/-- C1, amended: any exception during a recompute is caught and never
propagates (the update is a total function into cache states: the
serving path always receives a cache, never a fault); `computed_on` and
the current field always keep their previous values on a failing
recompute (the date is stamped only after both steps complete, and the
current write follows the voltage write); a failure before the voltage
step leaves the cache entirely unchanged — but a voltage value already
written before the failure point persists, so a failing recompute can
be observed as a partial update (new voltage, old current, old
`computed_on`). -/
theorem c1_failure_semantics (today : ℤ) (pre : ForecastCache) :
    (∀ vStep cStep, updateForecastCacheSteps today vStep cStep pre
        = (recomputeBodyRaw today vStep cStep pre).1)
    ∧ (∀ cStep, updateForecastCacheSteps today .fail cStep pre = pre)
    ∧ (∀ vOpt,
        (updateForecastCacheSteps today (.ok vOpt) .fail pre).date
            = pre.date
        ∧ (updateForecastCacheSteps today (.ok vOpt) .fail pre).current
            = pre.current)
    ∧ (∀ q, (updateForecastCacheSteps today (.ok (some q)) .fail
        pre).voltage = some (round2 q)) := by
  refine ⟨fun _ _ => rfl, fun _ => rfl, fun vOpt => ?_, fun q => rfl⟩
  cases vOpt <;> exact ⟨rfl, rfl⟩

/-- C1 witness. -/
theorem c1_failure_semantics_witness :
    (∀ vStep cStep, updateForecastCacheSteps 3 vStep cStep
        ⟨some 1, none, none⟩
        = (recomputeBodyRaw 3 vStep cStep ⟨some 1, none, none⟩).1)
    ∧ (∀ cStep, updateForecastCacheSteps 3 .fail cStep
        ⟨some 1, none, none⟩ = ⟨some 1, none, none⟩)
    ∧ (∀ vOpt,
        (updateForecastCacheSteps 3 (.ok vOpt) .fail
            ⟨some 1, none, none⟩).date = none
        ∧ (updateForecastCacheSteps 3 (.ok vOpt) .fail
            ⟨some 1, none, none⟩).current = none)
    ∧ (∀ q, (updateForecastCacheSteps 3 (.ok (some q)) .fail
        ⟨some 1, none, none⟩).voltage = some (round2 q)) :=
  c1_failure_semantics 3 ⟨some 1, none, none⟩

/-- C2, counterexample.  The claim asserts the two field predictions
are computed independently, a failure in one never preventing the
other's update.  It is false on the code: from the never-computed
cache, a recompute whose voltage step raises leaves the current field
untouched (`none`) even though the very same current step, run when the
voltage step merely finds no data, writes current `7` — so the
voltage failure did prevent the current update. -/
theorem c2_voltage_failure_blocks_current :
    updateForecastCacheSteps 1 .fail (.ok (some 7))
        ⟨none, none, none⟩ = ⟨none, none, none⟩
    ∧ updateForecastCacheSteps 1 (.ok none) (.ok (some 7))
        ⟨none, none, none⟩ = ⟨none, some 7, some 1⟩ := by
  constructor
  · rfl
  · show (⟨none, some (round2 7), some 1⟩ : ForecastCache) = _
    norm_num [round2]

/-- C2, amended: both predictions run inside one guarded block with the
voltage step first.  A failure computing current does not prevent the
voltage update, which has already been written; but a failure computing
voltage aborts the block and prevents the current update (the cache is
left entirely unchanged).  No exception propagates in either case. -/
theorem c2_sequential_not_independent (today : ℤ) (pre : ForecastCache)
    (v : ℚ) :
    (∀ cStep, (updateForecastCacheSteps today (.ok (some v)) cStep
        pre).voltage = some (round2 v))
    ∧ (∀ cStep, updateForecastCacheSteps today .fail cStep pre = pre) := by
  constructor
  · intro cStep
    cases cStep with
    | fail => rfl
    | ok cOpt => cases cOpt <;> rfl
  · intro _; rfl

/-- C2 witness. -/
theorem c2_sequential_not_independent_witness :
    (∀ cStep, (updateForecastCacheSteps 2 (.ok (some 9)) cStep
        ⟨none, none, none⟩).voltage = some (round2 9))
    ∧ (∀ cStep, updateForecastCacheSteps 2 .fail cStep
        ⟨none, none, none⟩ = ⟨none, none, none⟩) :=
  c2_sequential_not_independent 2 ⟨none, none, none⟩ 9

/-- C5: whenever the monthly series has strictly fewer buckets than the
threshold, the monthly prediction path yields the absent result
`none`, never a numeric prediction (`load_monthly_data` returns `None`,
`predict_highest_month` maps it to `(None, None)`). -/
theorem c5_insufficient_history (rows : List MonthlyRow) (t : ℕ)
    (h : rows.length < t) : predictHighestMonth rows t = none := by
  unfold predictHighestMonth
  rw [if_pos h]

/-- C5 witness. -/
theorem c5_insufficient_history_witness :
    ([⟨2023, 1, 1⟩, ⟨2023, 2, 2⟩] : List MonthlyRow).length < 6
    ∧ predictHighestMonth [⟨2023, 1, 1⟩, ⟨2023, 2, 2⟩] 6 = none :=
  ⟨by decide, c5_insufficient_history _ 6 (by decide)⟩

/-- C5, counterexample.  The claim additionally asserts the insufficient
signal "for every threshold greater than or equal to the actual bucket
count"; at equality this is false: with 2 monthly buckets and threshold
2 (`2 ≥ 2`), the gate `len(monthly_data) < min_months_required` does
not fire and a numeric prediction is returned. -/
theorem c5_threshold_equal_predicts :
    ([⟨2023, 1, 1⟩, ⟨2023, 2, 2⟩] : List MonthlyRow).length ≤ 2
    ∧ predictHighestMonth [⟨2023, 1, 1⟩, ⟨2023, 2, 2⟩] 2
        = some (24290, 14) := by
  constructor
  · decide
  · norm_num [predictHighestMonth, futureMonths, maxMonthNum, minMonthNum,
      monthNums, monthNum, minYear, startMonthAbs, absMonth, monthlyFit,
      monthlyPts, fitOLS, slopeOf, sxxOf, sxyOf, xbarOf, ybarOf, sumBy,
      bestOf, Fit.predict, round2, List.range_succ]

/-- C7: degenerate next-day predictions.  With exactly one daily bucket
the OLS pipeline returns that bucket's average (sklearn's minimum-norm
fit has slope 0 and intercept the mean), a value, not a fault; with
zero daily buckets the prediction is absent, and a recompute from the
never-computed cache leaves both cached fields `None`. -/
theorem c7_degenerate_cases (r : DailyRow) :
    predictNextValue [r] = some r.avg_value
    ∧ predictNextValue ([] : List DailyRow) = none
    ∧ (updateForecastCache 0 [] [] ⟨none, none, none⟩).voltage = none
    ∧ (updateForecastCache 0 [] [] ⟨none, none, none⟩).current = none := by
  refine ⟨?_, rfl, rfl, rfl⟩
  show some ((dailyFit [r]).predict _) = _
  have hpts : dayNumPts [r] = [(0, r.avg_value)] := by
    simp [dayNumPts, minDate]
  have hmax : maxDayNum [r] = 0 := by
    simp [maxDayNum, dayNums, minDate]
  rw [hmax]
  unfold dailyFit
  rw [hpts]
  unfold fitOLS Fit.predict slopeOf sxxOf sxyOf xbarOf ybarOf sumBy
  norm_num

/-- C7 witness. -/
theorem c7_degenerate_cases_witness :
    predictNextValue [⟨5, 7/3⟩] = some (7/3)
    ∧ predictNextValue ([] : List DailyRow) = none
    ∧ (updateForecastCache 0 [] [] ⟨none, none, none⟩).voltage = none
    ∧ (updateForecastCache 0 [] [] ⟨none, none, none⟩).current = none :=
  c7_degenerate_cases ⟨5, 7/3⟩

/-- C8: each forecast read (`sensor_dashboard` line 559, `api_forecast`
line 708 — the identical guard) recomputes synchronously before
returning exactly when the cache is Stale (`computed_on` differs from
today, including never computed), and returns the cache untouched with
no recompute when it is Fresh (`computed_on` equals today). -/
theorem c8_read_through_staleness (today : ℤ)
    (vRows cRows : List DailyRow) (cache : ForecastCache) :
    (cache.date = some today →
        forecastRead today vRows cRows cache = (cache, false))
    ∧ (cache.date ≠ some today →
        forecastRead today vRows cRows cache
          = (updateForecastCache today vRows cRows cache, true)) := by
  constructor
  · intro h; simp [forecastRead, h]
  · intro h; simp [forecastRead, h]

/-- C8 witness. -/
theorem c8_read_through_staleness_witness :
    ((⟨none, none, some 4⟩ : ForecastCache).date = some 4 →
        forecastRead 4 [] [] ⟨none, none, some 4⟩
          = (⟨none, none, some 4⟩, false))
    ∧ ((⟨none, none, some 4⟩ : ForecastCache).date ≠ some 4 →
        forecastRead 4 [] [] ⟨none, none, some 4⟩
          = (updateForecastCache 4 [] [] ⟨none, none, some 4⟩, true)) :=
  c8_read_through_staleness 4 [] [] ⟨none, none, some 4⟩

/-- C9: a completed recompute never resets a previously computed value
to absent — a field whose daily aggregation yields no rows keeps its
old cached value — and every recompute that runs to completion stamps
`computed_on` with today, even when neither field produced a new value:
with no data at all the post-state is exactly the old values under
today's date, so a Fresh cache may serve values computed from an
earlier day's data. -/
theorem c9_no_reset_and_stamp (today : ℤ) (pre : ForecastCache) :
    (∀ cRows, (updateForecastCache today [] cRows pre).voltage
        = pre.voltage)
    ∧ (∀ vRows, (updateForecastCache today vRows [] pre).current
        = pre.current)
    ∧ (∀ vRows cRows, (updateForecastCache today vRows cRows pre).date
        = some today)
    ∧ updateForecastCache today [] [] pre
        = ⟨pre.voltage, pre.current, some today⟩ := by
  refine ⟨fun cRows => ?_, fun vRows => ?_, fun vRows cRows => ?_, rfl⟩
  · show (updateForecastCacheSteps today (.ok none) _ pre).voltage = _
    cases h : predictNextValue cRows <;>
      simp [updateForecastCacheSteps, recomputeBodyRaw, h]
  · show (updateForecastCacheSteps today _ (.ok none) pre).current = _
    cases h : predictNextValue vRows <;>
      simp [updateForecastCacheSteps, recomputeBodyRaw, h]
  · show (updateForecastCacheSteps today _ _ pre).date = _
    cases h : predictNextValue vRows <;>
      cases h2 : predictNextValue cRows <;>
        simp [updateForecastCacheSteps, recomputeBodyRaw, h, h2]

/-- C9 witness. -/
theorem c9_no_reset_and_stamp_witness :
    (∀ cRows, (updateForecastCache 6 [] cRows
        ⟨some 3, some 4, some 1⟩).voltage = some 3)
    ∧ (∀ vRows, (updateForecastCache 6 vRows []
        ⟨some 3, some 4, some 1⟩).current = some 4)
    ∧ (∀ vRows cRows, (updateForecastCache 6 vRows cRows
        ⟨some 3, some 4, some 1⟩).date = some 6)
    ∧ updateForecastCache 6 [] [] ⟨some 3, some 4, some 1⟩
        = ⟨some 3, some 4, some 6⟩ :=
  c9_no_reset_and_stamp 6 ⟨some 3, some 4, some 1⟩

/-! ### Pagination lemmas -/

/-- The page count times the page size covers the whole series. -/
theorem length_le_totalPages_mul (l : List α) (k : ℕ) (hk : 0 < k) :
    l.length ≤ totalPages l k * k := by
  unfold totalPages
  by_cases h : l.isEmpty
  · rw [if_pos h]
    have : l.length = 0 := by simpa [List.isEmpty_iff] using h
    omega
  · rw [if_neg h]
    have h2 : l.length + k - 1 < (l.length + k - 1) / k * k + k := by
      have h1 := (Nat.div_lt_iff_lt_mul hk).mp
        (Nat.lt_succ_self ((l.length + k - 1) / k))
      calc l.length + k - 1 < ((l.length + k - 1) / k + 1) * k := h1
        _ = (l.length + k - 1) / k * k + k := by ring
    omega

/-- Concatenating `m` successive `k`-slices of a series that fits in
them reconstructs the series. -/
theorem join_chunks (k : ℕ) :
    ∀ (m : ℕ) (l : List α), l.length ≤ m * k →
      ((List.range m).map fun j => (l.drop (j * k)).take k).flatten = l := by
  intro m
  induction m with
  | zero =>
    intro l hl
    have : l = [] := List.eq_nil_of_length_eq_zero (by omega)
    simp [this]
  | succ m ih =>
    intro l hl
    rw [List.range_succ_eq_map, List.map_cons, List.map_map,
      List.flatten_cons]
    have hmap : (List.range m).map
          ((fun j => (l.drop (j * k)).take k) ∘ Nat.succ)
        = (List.range m).map fun j => ((l.drop k).drop (j * k)).take k := by
      apply List.map_congr_left
      intro j _
      simp only [Function.comp_apply, Nat.succ_eq_add_one]
      rw [List.drop_drop]
      ring_nf
    have hlen : (l.drop k).length ≤ m * k := by
      rw [List.length_drop]
      have h1 : l.length ≤ m * k + k := by
        calc l.length ≤ (m + 1) * k := hl
          _ = m * k + k := by ring
      omega
    rw [hmap, ih (l.drop k) hlen]
    rw [Nat.zero_mul, List.drop_zero, List.take_append_drop]

/-- The code's page count equals the mathematical
`max 1 ⌈length / page_size⌉`. -/
theorem totalPages_eq_ceil (l : List α) (k : ℕ) (hk : 0 < k) :
    (totalPages l k : ℤ) = max 1 ⌈(l.length : ℚ) / (k : ℚ)⌉ := by
  unfold totalPages
  by_cases h : l.isEmpty
  · have h0 : l.length = 0 := by simpa [List.isEmpty_iff] using h
    rw [if_pos h, h0]
    norm_num
  · rw [if_neg h]
    have hn : 1 ≤ l.length := by
      cases l with
      | nil => simp at h
      | cons a as => simp
    have hkQ : (0 : ℚ) < (k : ℚ) := by exact_mod_cast hk
    have hub : (l.length + k - 1) / k * k ≤ l.length + k - 1 :=
      Nat.div_mul_le_self _ _
    have hlb : l.length ≤ (l.length + k - 1) / k * k := by
      have h2 : l.length + k - 1 < (l.length + k - 1) / k * k + k := by
        have h1 := (Nat.div_lt_iff_lt_mul hk).mp
          (Nat.lt_succ_self ((l.length + k - 1) / k))
        calc l.length + k - 1 < ((l.length + k - 1) / k + 1) * k := h1
          _ = (l.length + k - 1) / k * k + k := by ring
      omega
    have hub' : (l.length + k - 1) / k * k + 1 ≤ l.length + k := by omega
    have hq1 : 1 ≤ (l.length + k - 1) / k := by
      rw [Nat.one_le_div_iff hk]; omega
    generalize (l.length + k - 1) / k = q at hlb hub' hq1 ⊢
    have hlbQ : (l.length : ℚ) ≤ (q : ℚ) * k := by exact_mod_cast hlb
    have hubQ : (q : ℚ) * k + 1 ≤ (l.length : ℚ) + k := by
      exact_mod_cast hub'
    have hceil : ⌈(l.length : ℚ) / (k : ℚ)⌉ = (q : ℤ) := by
      rw [Int.ceil_eq_iff]
      constructor
      · rw [lt_div_iff₀ hkQ]
        push_cast
        nlinarith
      · rw [div_le_iff₀ hkQ]
        push_cast
        linarith
    rw [hceil, max_eq_right (by exact_mod_cast hq1)]

/-- C4: for every series, `page_number ≥ 1` and `page_size > 0`:
the page count is `ceil(len/page_size)` with minimum 1 on an empty
series; concatenating all page slices in page order reconstructs the
series; the chart page is the selected slice reversed; and when the
underlying series is stored newest-first the chart page is in
chronological oldest-first order.  All operations are pure, so the
underlying series is never modified. -/
theorem c4_pagination (l : List ChartRow) (page k : ℕ)
    (_hpage : 1 ≤ page) (hk : 0 < k) :
    (totalPages l k : ℤ) = max 1 ⌈(l.length : ℚ) / (k : ℚ)⌉
    ∧ ((List.range (totalPages l k)).map
        fun j => pageSlice l (j + 1) k).flatten = l
    ∧ chartPage l page k = (pageSlice l page k).reverse
    ∧ (l.Pairwise (fun a b => b.date < a.date) →
        (chartPage l page k).Pairwise fun a b => a.date < b.date) := by
  refine ⟨totalPages_eq_ceil l k hk, ?_, rfl, ?_⟩
  · have h := join_chunks k (totalPages l k) l
      (length_le_totalPages_mul l k hk)
    simpa [pageSlice, Nat.add_sub_cancel] using h
  · intro hdesc
    unfold chartPage
    rw [List.pairwise_reverse]
    exact hdesc.sublist
      ((List.take_sublist _ _).trans (List.drop_sublist _ _))

/-- C4 witness. -/
theorem c4_pagination_witness :
    (totalPages ([⟨5, 1, 1, 1⟩] : List ChartRow) 2 : ℤ)
        = max 1 ⌈(([⟨5, 1, 1, 1⟩] : List ChartRow).length : ℚ) / (2 : ℚ)⌉
    ∧ ((List.range (totalPages ([⟨5, 1, 1, 1⟩] : List ChartRow) 2)).map
        fun j => pageSlice ([⟨5, 1, 1, 1⟩] : List ChartRow) (j + 1) 2).flatten
        = [⟨5, 1, 1, 1⟩]
    ∧ chartPage ([⟨5, 1, 1, 1⟩] : List ChartRow) 1 2
        = (pageSlice ([⟨5, 1, 1, 1⟩] : List ChartRow) 1 2).reverse
    ∧ (([⟨5, 1, 1, 1⟩] : List ChartRow).Pairwise
        (fun a b => b.date < a.date) →
        (chartPage ([⟨5, 1, 1, 1⟩] : List ChartRow) 1 2).Pairwise
          fun a b => a.date < b.date) :=
  c4_pagination [⟨5, 1, 1, 1⟩] 1 2 (by decide) (by decide)

/-- C10: for every chart page number strictly greater than
`total_pages` and any positive page size, the out-of-range slice is
empty, so the chart payload has empty labels, voltage, current and
steps lists, with the same `total_pages` value; the function is total,
so no error is raised. -/
theorem c10_out_of_range_page (l : List ChartRow) (page k : ℕ)
    (hk : 0 < k) (hp : totalPages l k < page) :
    chartDataAlias l page k
      = ⟨[], [], [], [], totalPages l k, page⟩ := by
  have hslice : pageSlice l page k = [] := by
    unfold pageSlice
    have hlen : l.length ≤ (page - 1) * k := by
      calc l.length ≤ totalPages l k * k := length_le_totalPages_mul l k hk
        _ ≤ (page - 1) * k := Nat.mul_le_mul_right k (by omega)
    rw [List.drop_eq_nil_of_le hlen, List.take_nil]
  unfold chartDataAlias chartPage
  rw [hslice]
  rfl

/-- C10 witness. -/
theorem c10_out_of_range_page_witness :
    0 < 3 ∧ totalPages ([⟨7, 1, 1, 1⟩] : List ChartRow) 3 < 2
    ∧ chartDataAlias ([⟨7, 1, 1, 1⟩] : List ChartRow) 2 3
        = ⟨[], [], [], [], totalPages ([⟨7, 1, 1, 1⟩] : List ChartRow) 3, 2⟩ :=
  ⟨by decide, by decide, c10_out_of_range_page [⟨7, 1, 1, 1⟩] 2 3
    (by decide) (by decide)⟩

/-! ### First-argmax lemmas -/

/-- Unfolding `bestOf` over a cons cell. -/
theorem bestOf_cons (p q : ℤ × ℚ) (l : List (ℤ × ℚ)) :
    bestOf p (q :: l) = bestOf (if p.2 < q.2 then q else p) l := rfl

/-- The selected pair is one of the candidates. -/
theorem bestOf_mem : ∀ (l : List (ℤ × ℚ)) (p), bestOf p l ∈ p :: l := by
  intro l
  induction l with
  | nil => intro p; simp [bestOf]
  | cons q l ih =>
    intro p
    by_cases hpq : p.2 < q.2
    · rw [bestOf_cons, if_pos hpq]
      rcases List.mem_cons.mp (ih q) with h1 | h2
      · rw [h1]; exact List.mem_cons_of_mem _ (List.mem_cons_self _ _)
      · exact List.mem_cons_of_mem _ (List.mem_cons_of_mem _ h2)
    · rw [bestOf_cons, if_neg hpq]
      rcases List.mem_cons.mp (ih p) with h1 | h2
      · rw [h1]; exact List.mem_cons_self _ _
      · exact List.mem_cons_of_mem _ (List.mem_cons_of_mem _ h2)

/-- The selected pair has the maximal value among the candidates. -/
theorem bestOf_le : ∀ (l : List (ℤ × ℚ)) (p), ∀ q ∈ p :: l,
    q.2 ≤ (bestOf p l).2 := by
  intro l
  induction l with
  | nil =>
    intro p q hq
    rw [List.mem_singleton.mp hq]
    exact le_refl _
  | cons r l ih =>
    intro p q hq
    rw [bestOf_cons]
    have hple : p.2 ≤ (if p.2 < r.2 then r else p).2 := by
      by_cases hpq : p.2 < r.2
      · rw [if_pos hpq]; exact le_of_lt hpq
      · rw [if_neg hpq]
    have hrle : r.2 ≤ (if p.2 < r.2 then r else p).2 := by
      by_cases hpq : p.2 < r.2
      · rw [if_pos hpq]
      · rw [if_neg hpq]; exact le_of_not_lt hpq
    have hbest := ih (if p.2 < r.2 then r else p) _ (List.mem_cons_self _ _)
    rcases List.mem_cons.mp hq with h1 | h2
    · rw [h1]; exact le_trans hple hbest
    · rcases List.mem_cons.mp h2 with h3 | h4
      · rw [h3]; exact le_trans hrle hbest
      · exact ih _ q (List.mem_cons_of_mem _ h4)

/-- The selected pair is the first candidate attaining the maximum:
every candidate strictly before it in list order has a strictly smaller
value. -/
theorem bestOf_first : ∀ (l : List (ℤ × ℚ)) (p), ∃ l1 l2,
    p :: l = l1 ++ bestOf p l :: l2
    ∧ ∀ q ∈ l1, q.2 < (bestOf p l).2 := by
  intro l
  induction l with
  | nil => intro p; exact ⟨[], [], rfl, by simp⟩
  | cons r l ih =>
    intro p
    rw [bestOf_cons]
    by_cases hpq : p.2 < r.2
    · rw [if_pos hpq]
      obtain ⟨l1, l2, heq, hlt⟩ := ih r
      refine ⟨p :: l1, l2, ?_, ?_⟩
      · rw [List.cons_append, ← heq]
      · intro q hq
        rcases List.mem_cons.mp hq with h1 | h2
        · rw [h1]
          exact lt_of_lt_of_le hpq (bestOf_le l r r (List.mem_cons_self _ _))
        · exact hlt q h2
    · rw [if_neg hpq]
      obtain ⟨l1, l2, heq, hlt⟩ := ih p
      cases l1 with
      | nil =>
        rw [List.nil_append] at heq
        injection heq with h1 h2
        refine ⟨[], r :: l, ?_, by simp⟩
        rw [List.nil_append, ← h1]
      | cons a l1 =>
        rw [List.cons_append, List.cons.injEq] at heq
        refine ⟨p :: r :: l1, l2, ?_, ?_⟩
        · exact congrArg (fun t => p :: r :: t) heq.2
        · have hpb : p.2 < (bestOf p l).2 := by
            have := hlt a (List.mem_cons_self _ _)
            rw [← heq.1] at this
            exact this
          intro q hq
          rcases List.mem_cons.mp hq with h1 | h2
          · rw [h1]; exact hpb
          · rcases List.mem_cons.mp h2 with h3 | h4
            · rw [h3]; exact lt_of_le_of_lt (le_of_not_lt hpq) hpb
            · exact hlt q (List.mem_cons_of_mem _ h4)

/-- When the candidate list is strictly increasing in its first
component, every candidate with a smaller first component than the
selected one has a strictly smaller value (first-occurrence argmax
tie-breaking). -/
theorem bestOf_earliest (p : ℤ × ℚ) (l : List (ℤ × ℚ))
    (hpw : (p :: l).Pairwise fun a b => a.1 < b.1) :
    ∀ q ∈ p :: l, q.1 < (bestOf p l).1 → q.2 < (bestOf p l).2 := by
  obtain ⟨l1, l2, heq, hlt⟩ := bestOf_first l p
  intro q hq hqlt
  rw [heq] at hq hpw
  rcases List.mem_append.mp hq with h1 | h2
  · exact hlt q h1
  · rcases List.mem_cons.mp h2 with h3 | h4
    · rw [h3] at hqlt; exact absurd hqlt (lt_irrefl _)
    · have hb : (bestOf p l).1 < q.1 :=
        (List.pairwise_cons.mp (List.pairwise_append.mp hpw).2.1).1 q h4
      exact absurd (lt_trans hqlt hb) (lt_irrefl _)

/-! ### Month-index lemmas -/

/-- The future month indices are strictly increasing in list order. -/
theorem futureMonths_pairwise (rows : List MonthlyRow) :
    (futureMonths rows).Pairwise (· < ·) := by
  unfold futureMonths
  rw [List.pairwise_map]
  refine (List.pairwise_lt_range 12).imp ?_
  intro a b hab
  have : (a : ℤ) < (b : ℤ) := by exact_mod_cast hab
  omega

/-- The future month indices are exactly the 12 integers following the
maximum observed index. -/
theorem futureMonths_mem_iff (rows : List MonthlyRow) (m : ℤ) :
    m ∈ futureMonths rows ↔
      maxMonthNum rows + 1 ≤ m ∧ m ≤ maxMonthNum rows + 12 := by
  unfold futureMonths
  simp only [List.mem_map, List.mem_range]
  constructor
  · rintro ⟨i, hi, rfl⟩
    have : (i : ℤ) < 12 := by exact_mod_cast hi
    omega
  · rintro ⟨h1, h2⟩
    refine ⟨(m - maxMonthNum rows - 1).toNat, ?_, ?_⟩ <;> omega

/-- Folding `min` commutes with subtracting a constant from every
element. -/
theorem foldl_min_sub (g : MonthlyRow → ℤ) (c : ℤ) :
    ∀ (rs : List MonthlyRow) (a : ℤ),
      rs.foldl (fun m s => min m (g s - c)) (a - c)
        = rs.foldl (fun m s => min m (g s)) a - c := by
  intro rs
  induction rs with
  | nil => intro a; rfl
  | cons s rs ih =>
    intro a
    show rs.foldl _ (min (a - c) (g s - c)) = _
    rw [min_sub_sub_right, ih (min a (g s))]
    rfl

/-- The code's month-label offset identity: subtracting the minimum
continuous month number from the earliest calendar month recovers
`12 * minYear`, so `start_month + DateOffset(months = m - month_num.min())`
is the calendar month with continuous index `m`. -/
theorem startMonthAbs_sub_minMonthNum (rows : List MonthlyRow) :
    startMonthAbs rows - minMonthNum rows = 12 * minYear rows := by
  cases rows with
  | nil => rfl
  | cons r rs =>
    have habs : ∀ s : MonthlyRow, monthNum (r :: rs) s
        = absMonth s - 12 * minYear (r :: rs) := by
      intro s
      unfold monthNum absMonth
      ring
    show startMonthAbs (r :: rs)
        - (rs.map (monthNum (r :: rs))).foldl min (monthNum (r :: rs) r) = _
    have hfold : (rs.map (monthNum (r :: rs))).foldl min (monthNum (r :: rs) r)
        = rs.foldl (fun m s => min m (absMonth s - 12 * minYear (r :: rs)))
            (absMonth r - 12 * minYear (r :: rs)) := by
      rw [List.foldl_map, habs r]
      apply List.foldl_ext
      intro m s _
      rw [habs s]
    rw [hfold, foldl_min_sub absMonth (12 * minYear (r :: rs)) rs (absMonth r)]
    show startMonthAbs (r :: rs)
        - (rs.foldl (fun m s => min m (absMonth s)) (absMonth r)
            - 12 * minYear (r :: rs)) = _
    have : startMonthAbs (r :: rs)
        = rs.foldl (fun m s => min m (absMonth s)) (absMonth r) := rfl
    omega

/-- C3: for every monthly series with at least the required minimum
number of buckets, the best-month predictor returns
`some (label, value)` where: the selected index `m` is one of exactly
the 12 integer indices `max_observed_index + 1 .. max_observed_index + 12`
(the final conjunct characterises the evaluation set, independent of
calendar gaps); `value` is the 2-decimal rounding of the fitted OLS
line at `m`; the prediction at `m` is maximal among the 12; any index
strictly before `m` predicts strictly less (earliest-index
tie-breaking, `np.argmax` first occurrence); and the returned label is
the calendar month with continuous index `m`
(`12 * minYear + m` as an absolute month count, which is what
`start_month + DateOffset(months = m - month_num.min())` denotes). -/
theorem c3_best_month (rows : List MonthlyRow) (minMonths : ℕ)
    (hlen : minMonths ≤ rows.length) :
    ∃ m : ℤ, m ∈ futureMonths rows
    ∧ predictHighestMonth rows minMonths
        = some (12 * minYear rows + m,
            round2 ((monthlyFit rows).predict (m : ℚ)))
    ∧ (∀ m2 ∈ futureMonths rows,
        (monthlyFit rows).predict (m2 : ℚ)
          ≤ (monthlyFit rows).predict (m : ℚ))
    ∧ (∀ m2 ∈ futureMonths rows, m2 < m →
        (monthlyFit rows).predict (m2 : ℚ)
          < (monthlyFit rows).predict (m : ℚ))
    ∧ (∀ m2 : ℤ, m2 ∈ futureMonths rows ↔
        maxMonthNum rows + 1 ≤ m2 ∧ m2 ≤ maxMonthNum rows + 12) := by
  have hnotlt : ¬ rows.length < minMonths := not_lt.mpr hlen
  have hne : (futureMonths rows).map
      (fun m => ((m, (monthlyFit rows).predict (m : ℚ)) : ℤ × ℚ)) ≠ [] := by
    simp [futureMonths]
  obtain ⟨p, ps, hps⟩ := List.exists_cons_of_ne_nil hne
  have heval : predictHighestMonth rows minMonths
      = some (startMonthAbs rows + ((bestOf p ps).1 - minMonthNum rows),
          round2 (bestOf p ps).2) := by
    unfold predictHighestMonth
    rw [if_neg hnotlt, hps]
  have hmem : bestOf p ps ∈ (futureMonths rows).map
      (fun m => ((m, (monthlyFit rows).predict (m : ℚ)) : ℤ × ℚ)) := by
    rw [hps]; exact bestOf_mem ps p
  obtain ⟨m, hmF, hbm⟩ := List.mem_map.mp hmem
  have hbm' : ((m, (monthlyFit rows).predict (m : ℚ)) : ℤ × ℚ)
      = bestOf p ps := hbm
  have hfst : (bestOf p ps).1 = m := by rw [← hbm']
  have hsnd : (bestOf p ps).2 = (monthlyFit rows).predict (m : ℚ) := by
    rw [← hbm']
  refine ⟨m, hmF, ?_, ?_, ?_, futureMonths_mem_iff rows⟩
  · rw [heval, hfst, hsnd]
    have hlab := startMonthAbs_sub_minMonthNum rows
    have : startMonthAbs rows + (m - minMonthNum rows)
        = 12 * minYear rows + m := by omega
    rw [this]
  · intro m2 hm2
    have hin : ((m2, (monthlyFit rows).predict (m2 : ℚ)) : ℤ × ℚ)
        ∈ p :: ps := by
      rw [← hps]
      exact List.mem_map_of_mem _ hm2
    have := bestOf_le ps p _ hin
    rw [hsnd] at this
    exact this
  · intro m2 hm2 hlt
    have hpw : (p :: ps).Pairwise fun a b => a.1 < b.1 := by
      rw [← hps, List.pairwise_map]
      exact futureMonths_pairwise rows
    have hin : ((m2, (monthlyFit rows).predict (m2 : ℚ)) : ℤ × ℚ)
        ∈ p :: ps := by
      rw [← hps]
      exact List.mem_map_of_mem _ hm2
    have hres := bestOf_earliest p ps hpw _ hin (by rw [hfst]; exact hlt)
    rw [hsnd] at hres
    exact hres

/-- C3 witness. -/
theorem c3_best_month_witness :
    (1 : ℕ) ≤ ([⟨2024, 3, 5⟩] : List MonthlyRow).length
    ∧ (∃ m : ℤ, m ∈ futureMonths [⟨2024, 3, 5⟩]
    ∧ predictHighestMonth [⟨2024, 3, 5⟩] 1
        = some (12 * minYear [⟨2024, 3, 5⟩] + m,
            round2 ((monthlyFit [⟨2024, 3, 5⟩]).predict (m : ℚ)))
    ∧ (∀ m2 ∈ futureMonths [⟨2024, 3, 5⟩],
        (monthlyFit [⟨2024, 3, 5⟩]).predict (m2 : ℚ)
          ≤ (monthlyFit [⟨2024, 3, 5⟩]).predict (m : ℚ))
    ∧ (∀ m2 ∈ futureMonths [⟨2024, 3, 5⟩], m2 < m →
        (monthlyFit [⟨2024, 3, 5⟩]).predict (m2 : ℚ)
          < (monthlyFit [⟨2024, 3, 5⟩]).predict (m : ℚ))
    ∧ (∀ m2 : ℤ, m2 ∈ futureMonths [⟨2024, 3, 5⟩] ↔
        maxMonthNum [⟨2024, 3, 5⟩] + 1 ≤ m2
          ∧ m2 ≤ maxMonthNum [⟨2024, 3, 5⟩] + 12)) :=
  ⟨by decide, c3_best_month [⟨2024, 3, 5⟩] 1 (by decide)⟩

/-! ### Positivity of the OLS slope on strictly co-monotone data -/

/-- List sums as sums over `Fin`. -/
theorem sumBy_eq_finsum (l : List α) (f : α → ℚ) :
    sumBy l f = ∑ i : Fin l.length, f (l.get i) := by
  show (l.map f).sum = _
  rw [Fin.sum_univ_def]
  congr 1
  conv_lhs => rw [← List.finRange_map_get l]
  rw [List.map_map]
  rfl

/-- Expansion of one row of the pairwise-difference double sum. -/
theorem inner_expansion (n : ℕ) (x y : Fin n → ℚ) (i : Fin n) :
    ∑ j, (x i - x j) * (y i - y j)
      = (n : ℚ) * (x i * y i) - x i * (∑ j, y j) - (∑ j, x j) * y i
        + ∑ j, x j * y j := by
  have h : (fun j => (x i - x j) * (y i - y j))
      = fun j => x i * y i - x i * y j - x j * y i + x j * y j := by
    funext j; ring
  rw [h, Finset.sum_add_distrib, Finset.sum_sub_distrib,
    Finset.sum_sub_distrib, Finset.sum_const, Finset.card_univ,
    Fintype.card_fin, nsmul_eq_mul, ← Finset.mul_sum, ← Finset.sum_mul]

/-- The pairwise-difference double sum in terms of the raw moments. -/
theorem double_sum_eq (n : ℕ) (x y : Fin n → ℚ) :
    ∑ i, ∑ j, (x i - x j) * (y i - y j)
      = 2 * (n : ℚ) * (∑ i, x i * y i)
        - 2 * (∑ i, x i) * (∑ i, y i) := by
  rw [Finset.sum_congr rfl fun i _ => inner_expansion n x y i,
    Finset.sum_add_distrib, Finset.sum_sub_distrib, Finset.sum_sub_distrib,
    Finset.sum_const, Finset.card_univ, Fintype.card_fin, nsmul_eq_mul,
    ← Finset.mul_sum, ← Finset.sum_mul, ← Finset.mul_sum]
  ring

/-- The centered cross sum in terms of the raw moments. -/
theorem center_eq (n : ℕ) (hn : 0 < n) (x y : Fin n → ℚ) :
    ∑ i, (x i - (∑ k, x k) / n) * (y i - (∑ k, y k) / n)
      = ∑ i, x i * y i - (∑ i, x i) * (∑ i, y i) / n := by
  have h : (fun i => (x i - (∑ k, x k) / n) * (y i - (∑ k, y k) / n))
      = fun i => x i * y i - x i * ((∑ k, y k) / n)
          - ((∑ k, x k) / n) * y i
          + ((∑ k, x k) / n) * ((∑ k, y k) / n) := by
    funext i; ring
  rw [h, Finset.sum_add_distrib, Finset.sum_sub_distrib,
    Finset.sum_sub_distrib, Finset.sum_const, Finset.card_univ,
    Fintype.card_fin, nsmul_eq_mul, ← Finset.sum_mul, ← Finset.mul_sum]
  have hn' : (n : ℚ) ≠ 0 := Nat.cast_ne_zero.mpr hn.ne'
  field_simp
  ring

/-- On strictly co-monotone data with at least two points, the
pairwise-difference double sum is strictly positive. -/
theorem double_sum_pos (n : ℕ) (hn : 2 ≤ n) (x y : Fin n → ℚ)
    (hm : ∀ i j : Fin n, i < j → x i < x j ∧ y i < y j) :
    0 < ∑ i, ∑ j, (x i - x j) * (y i - y j) := by
  have hterm : ∀ i j : Fin n, 0 ≤ (x i - x j) * (y i - y j) := by
    intro i j
    rcases lt_trichotomy i j with h | h | h
    · obtain ⟨h1, h2⟩ := hm i j h
      have := mul_pos_of_neg_of_neg (sub_neg.mpr h1) (sub_neg.mpr h2)
      linarith
    · rw [h]; simp
    · obtain ⟨h1, h2⟩ := hm j i h
      have := mul_pos (sub_pos.mpr h1) (sub_pos.mpr h2)
      linarith
  have h0 : (0 : ℕ) < n := by omega
  have h1 : (1 : ℕ) < n := by omega
  have h01 : (⟨0, h0⟩ : Fin n) < ⟨1, h1⟩ := by
    rw [Fin.mk_lt_mk]
    omega
  apply Finset.sum_pos'
  · intro i _
    exact Finset.sum_nonneg fun j _ => hterm i j
  · refine ⟨⟨0, h0⟩, Finset.mem_univ _, ?_⟩
    apply Finset.sum_pos' (fun j _ => hterm _ j)
    refine ⟨⟨1, h1⟩, Finset.mem_univ _, ?_⟩
    obtain ⟨hx, hy⟩ := hm _ _ h01
    exact mul_pos_of_neg_of_neg (sub_neg.mpr hx) (sub_neg.mpr hy)

/-- On strictly co-monotone data with at least two points, the centered
cross sum (the OLS numerator) is strictly positive. -/
theorem centered_sum_pos (n : ℕ) (hn : 2 ≤ n) (x y : Fin n → ℚ)
    (hm : ∀ i j : Fin n, i < j → x i < x j ∧ y i < y j) :
    0 < ∑ i, (x i - (∑ k, x k) / n) * (y i - (∑ k, y k) / n) := by
  have h0 : (0 : ℕ) < n := by omega
  have hn' : (0 : ℚ) < (n : ℚ) := by exact_mod_cast h0
  have hC := double_sum_pos n hn x y hm
  rw [double_sum_eq n x y] at hC
  rw [center_eq n h0 x y]
  have key : ∑ i, x i * y i - (∑ i, x i) * (∑ i, y i) / n
      = (2 * (n : ℚ) * (∑ i, x i * y i)
          - 2 * (∑ i, x i) * (∑ i, y i)) / (2 * n) := by
    field_simp
    ring
  rw [key]
  exact div_pos hC (by positivity)

/-- The fitted OLS slope is strictly positive on data whose features
and targets are both strictly increasing along the list. -/
theorem fitOLS_slope_pos (pts : List (ℚ × ℚ)) (h2 : 2 ≤ pts.length)
    (hm : pts.Pairwise fun p q => p.1 < q.1 ∧ p.2 < q.2) :
    0 < slopeOf pts := by
  have hmono : ∀ i j : Fin pts.length, i < j →
      (pts.get i).1 < (pts.get j).1 ∧ (pts.get i).2 < (pts.get j).2 :=
    fun i j hij => List.pairwise_iff_get.mp hm i j hij
  have hsxy : sxyOf pts = ∑ i : Fin pts.length,
      ((pts.get i).1
          - (∑ k : Fin pts.length, (pts.get k).1) / (pts.length : ℚ))
        * ((pts.get i).2
          - (∑ k : Fin pts.length, (pts.get k).2) / (pts.length : ℚ)) := by
    unfold sxyOf xbarOf ybarOf
    rw [sumBy_eq_finsum, sumBy_eq_finsum, sumBy_eq_finsum]
  have hsxx : sxxOf pts = ∑ i : Fin pts.length,
      ((pts.get i).1
          - (∑ k : Fin pts.length, (pts.get k).1) / (pts.length : ℚ))
        * ((pts.get i).1
          - (∑ k : Fin pts.length, (pts.get k).1) / (pts.length : ℚ)) := by
    unfold sxxOf xbarOf
    rw [sumBy_eq_finsum, sumBy_eq_finsum]
    apply Finset.sum_congr rfl
    intro i _
    rw [pow_two]
  have hposxy : 0 < sxyOf pts := by
    rw [hsxy]
    exact centered_sum_pos pts.length h2 _ _ hmono
  have hposxx : 0 < sxxOf pts := by
    rw [hsxx]
    exact centered_sum_pos pts.length h2 _ _
      (fun i j h => ⟨(hmono i j h).1, (hmono i j h).1⟩)
  unfold slopeOf
  rw [if_neg (ne_of_gt hposxx)]
  exact div_pos hposxy hposxx

/-- C6, counterexample.  The claim asserts the next-day prediction is
always ≥ the last observed daily average when the averages strictly
increase.  It is false on the code's OLS extrapolation: the strictly
increasing averages `0, 0.1, 0.2, 0.3, 10` over days `0..4` fit a line
whose value at day 5 is `8.18`, strictly below the last observed
average `10`. -/
theorem c6_prediction_below_last :
    (([⟨0, 0⟩, ⟨1, 1/10⟩, ⟨2, 1/5⟩, ⟨3, 3/10⟩, ⟨4, 10⟩] :
        List DailyRow).Pairwise
      fun a b => a.date < b.date ∧ a.avg_value < b.avg_value)
    ∧ predictNextValue [⟨0, 0⟩, ⟨1, 1/10⟩, ⟨2, 1/5⟩, ⟨3, 3/10⟩, ⟨4, 10⟩]
        = some (409/50)
    ∧ (409 : ℚ)/50 < 10 := by
  refine ⟨?_, ?_, by norm_num⟩
  · norm_num [List.pairwise_cons]
  · norm_num [predictNextValue, dailyFit, fitOLS, Fit.predict, slopeOf,
      sxxOf, sxyOf, xbarOf, ybarOf, sumBy, dayNumPts, dayNums, maxDayNum,
      minDate]

/-- C6, amended: for every reading set with at least two daily buckets
whose dates and per-day averages are both strictly increasing, the
fitted OLS slope is strictly positive, so the next-day prediction (the
fitted line one index past the maximum observed index) strictly
exceeds the fitted value at the last observed index.  (It need not be
≥ the last observed average itself.) -/
theorem c6_trend_continuation (rows : List DailyRow)
    (h2 : 2 ≤ rows.length)
    (hm : rows.Pairwise
      fun a b => a.date < b.date ∧ a.avg_value < b.avg_value) :
    0 < (dailyFit rows).slope
    ∧ (dailyFit rows).predict ((maxDayNum rows : ℚ))
        < (dailyFit rows).predict ((maxDayNum rows : ℚ) + 1)
    ∧ predictNextValue rows
        = some ((dailyFit rows).predict ((maxDayNum rows + 1 : ℤ) : ℚ)) := by
  have hpts : (dayNumPts rows).Pairwise
      fun p q => p.1 < q.1 ∧ p.2 < q.2 := by
    unfold dayNumPts
    rw [List.pairwise_map]
    exact hm.imp fun hab =>
      ⟨Int.cast_lt.mpr (sub_lt_sub_right hab.1 _), hab.2⟩
  have hlen : 2 ≤ (dayNumPts rows).length := by
    simpa [dayNumPts] using h2
  have hslope : 0 < (dailyFit rows).slope :=
    fitOLS_slope_pos _ hlen hpts
  refine ⟨hslope, ?_, ?_⟩
  · unfold Fit.predict
    nlinarith [hslope]
  · cases rows with
    | nil => simp at h2
    | cons r rs => rfl

/-- C6 witness (for the amended theorem). -/
theorem c6_trend_continuation_witness :
    (2 ≤ ([⟨0, 1⟩, ⟨1, 2⟩] : List DailyRow).length)
    ∧ (([⟨0, 1⟩, ⟨1, 2⟩] : List DailyRow).Pairwise
        fun a b => a.date < b.date ∧ a.avg_value < b.avg_value)
    ∧ (0 < (dailyFit [⟨0, 1⟩, ⟨1, 2⟩]).slope
      ∧ (dailyFit [⟨0, 1⟩, ⟨1, 2⟩]).predict
          ((maxDayNum [⟨0, 1⟩, ⟨1, 2⟩] : ℚ))
        < (dailyFit [⟨0, 1⟩, ⟨1, 2⟩]).predict
          ((maxDayNum [⟨0, 1⟩, ⟨1, 2⟩] : ℚ) + 1)
      ∧ predictNextValue [⟨0, 1⟩, ⟨1, 2⟩]
        = some ((dailyFit [⟨0, 1⟩, ⟨1, 2⟩]).predict
            ((maxDayNum [⟨0, 1⟩, ⟨1, 2⟩] + 1 : ℤ) : ℚ))) :=
  ⟨by decide, by norm_num [List.pairwise_cons],
    c6_trend_continuation [⟨0, 1⟩, ⟨1, 2⟩] (by decide)
      (by norm_num [List.pairwise_cons])⟩

end CapstoneBackend
